import Mathlib

/-!
Verification of `src/compose_utility.py` (mbecker8600/compose_builder).

The source builds "compose layer" tables from CDC batches with pandas:
`BasicComposeBuilder` maintains a current table (upsert by natural key),
and the decorator `TrackHistory` additionally maintains a historical
table of time-bounded versions (type-4 slowly changing dimension).

Shallow embedding: a pandas DataFrame is a named index plus a column
list plus labelled rows (association lists from attribute name to a
scalar value).  Dates are day numbers (`Int`); pandas `NaN`/`NaT` is
`Value.vnull`; `uuid.uuid1()` is modelled as a fresh-integer counter
(the only property used by the code is uniqueness).  A pandas
`KeyError` (missing column or index key) is `PdError.keyError`.
-/

/-- A scalar cell value: string, integer, date (day number) or null
(pandas `NaN`/`NaT`). -/
inductive Value where
  | vstr (s : String)
  | vint (n : Int)
  | vdate (d : Int)
  | vnull
deriving DecidableEq, Repr, Inhabited

/-- A row: association list from attribute name to value (one pandas
row, index label excluded). -/
abbrev Row := List (String × Value)

/-- First-match attribute lookup in a row. -/
def aGet : Row → String → Option Value
  | [], _ => none
  | q :: r, c => if q.1 = c then some q.2 else aGet r c

/-- Attribute names of a row. -/
def keysOf (r : Row) : List String := r.map Prod.fst

/-- Column assignment on one row: pandas `df[c] = v` overwrites the
column when present, else appends it. -/
def setAttr (r : Row) (c : String) (v : Value) : Row :=
  if c ∈ keysOf r then r.map (fun q => if q.1 = c then (c, v) else q)
  else r ++ [(c, v)]

/-- Drop the first binding of an attribute (pandas `set_index` removing
the chosen column from the data). -/
def eraseKey (r : Row) (c : String) : Row :=
  r.eraseP (fun q => decide (q.1 = c))

/-- Align a row to a column list: pandas alignment semantics; columns
absent from the row become null. -/
def alignRow (cs : List String) (r : Row) : Row :=
  cs.map (fun c => (c, (aGet r c).getD Value.vnull))

/-- Error raised by a pandas operation: `KeyError` for a missing
column or index name. -/
inductive PdError where
  | keyError (c : String)
deriving DecidableEq, Repr, Inhabited

/-- A pandas DataFrame: the name of the index, the column list, and the
rows, each an index label paired with its attribute values. -/
structure DF where
  ixName : String
  cols : List String
  rows : List (Value × Row)
deriving DecidableEq, Repr, Inhabited

/-- Index labels of a frame (`df.index`). -/
def DF.labels (df : DF) : List Value := df.rows.map Prod.fst

/-- First row carrying a given index label. -/
def findL (l : List (Value × Row)) (k : Value) : Option (Value × Row) :=
  l.find? (fun p => decide (p.1 = k))

/-- Point lookup by index label (`df.loc[k]`, first match). -/
def DF.getRow (df : DF) (k : Value) : Option Row :=
  (findL df.rows k).map Prod.snd

/-- Column read, `df[c]`: `KeyError` when the column is absent from the
frame's schema, else the column's values in row order. -/
def DF.getColVals (df : DF) (c : String) : Option (List Value) :=
  if c ∈ df.cols then some (df.rows.map (fun p => (aGet p.2 c).getD Value.vnull))
  else none

/-- Column assignment from a list of values, `df[c] = vs` (the source
only uses it with `len(vs) = len(df)`). -/
def DF.addColVals (df : DF) (c : String) (vs : List Value) : DF :=
  { df with
    cols := if c ∈ df.cols then df.cols else df.cols ++ [c],
    rows := List.zipWith (fun p v => (p.1, setAttr p.2 c v)) df.rows vs }

/-- Scalar column assignment, `df[c] = scalar` (broadcast). -/
def DF.addColScalar (df : DF) (c : String) (v : Value) : DF :=
  { df with
    cols := if c ∈ df.cols then df.cols else df.cols ++ [c],
    rows := df.rows.map (fun p => (p.1, setAttr p.2 c v)) }

/-- `df.reset_index(inplace=True); df.set_index(k, inplace=True)`: the
old index becomes an ordinary column, then column `k` becomes the new
index; `KeyError` when `k` is neither the old index nor a column
(source `swap_to_natural_key` / `swap_to_surrogate_key`,
compose_utility.py lines 31-37).  `swapRow` is the per-row effect: the
old label becomes a leading binding of the old index name, and the
value at `k` becomes the new label while its binding is removed. -/
def swapRow (ixn : String) (k : String) (p : Value × Row) : Value × Row :=
  ((aGet ((ixn, p.1) :: p.2) k).getD Value.vnull,
   eraseKey ((ixn, p.1) :: p.2) k)

/-- See `swapRow`: the frame-level key swap. -/
def DF.swapIx (df : DF) (k : String) : Except PdError DF :=
  if k ∈ df.ixName :: df.cols then
    .ok { ixName := k, cols := (df.ixName :: df.cols).erase k,
          rows := df.rows.map (swapRow df.ixName k) }
  else .error (.keyError k)

/-- `df[df[c].isnull()]`: keep rows whose value at column `c` is null;
`KeyError` when the column is absent. -/
def DF.filterNull (df : DF) (c : String) : Except PdError DF :=
  if c ∈ df.cols then
    .ok { df with rows := df.rows.filter (fun p =>
            decide ((aGet p.2 c).getD Value.vnull = Value.vnull)) }
  else .error (.keyError c)

/-- `t.ix[u.index] = u`: label-aligned bulk row assignment; for every
label of `t` matched in `u`, the row is replaced by `u`'s row aligned
to `t`'s columns (columns of `t` absent from `u`'s row become null). -/
def DF.ixAssign (t u : DF) : DF :=
  { t with rows := t.rows.map (fun p =>
      (p.1, match u.getRow p.1 with
            | some r => alignRow t.cols r
            | none => p.2)) }

/-- `t.append(u)`: concatenation; the column set becomes the union
(`t`'s columns first), all rows aligned to it with null fill. -/
def DF.appendCols (t u : DF) : List String :=
  t.cols ++ u.cols.filter (fun c => decide (¬ c ∈ t.cols))

def DF.appendDF (t u : DF) : DF :=
  { ixName := t.ixName, cols := t.appendCols u,
    rows := t.rows.map (fun p => (p.1, alignRow (t.appendCols u) p.2))
            ++ u.rows.map (fun p => (p.1, alignRow (t.appendCols u) p.2)) }

/-- `view.loc[cdc.index, 'effective_end'] = cdc['last_updated'] -
timedelta(days=1)` (line 129): label-aligned assignment of the shifted
timestamp into the open rows matched by the batch.  `pd.to_datetime`
on line 130 is the identity on our date/null values. -/
def locSetEnd (view ex : DF) : DF :=
  { view with rows := view.rows.map (fun p =>
      (p.1, match ex.getRow p.1 with
            | some r =>
                setAttr p.2 "effective_end"
                  (match (aGet r "last_updated").getD Value.vnull with
                   | .vdate d => .vdate (d - 1)
                   | v => v)
            | none => p.2)) }

/-- `generate_surrogate_keys` (lines 25-29): `n` fresh identifiers;
`uuid.uuid1()` is modelled as a counter, so key `i` of a call starting
at counter `k` is the integer `k + i`. -/
def freshKeys (k : Nat) : Nat → List Value
  | 0 => []
  | n + 1 => .vint k :: freshKeys (k + 1) n

/-- `split_cdc_records` (lines 39-44): partition a CDC batch into the
rows whose index label is already in the given current table and the
rows whose label is not. -/
def split_cdc_records (cur cdc : DF) : DF × DF :=
  ({ cdc with rows := cdc.rows.filter (fun p => decide (p.1 ∈ cur.labels)) },
   { cdc with rows := cdc.rows.filter (fun p => decide (¬ p.1 ∈ cur.labels)) })

/-- `BasicComposeBuilder.ingest_cdc` effect on the current table
(lines 58-70): overwrite the rows of existing keys in place via
`.ix[cdc.index] = cdc`, then append the rows of new keys. -/
def basicIngestCur (cur cdc : DF) : DF :=
  (cur.ixAssign (split_cdc_records cur cdc).1).appendDF (split_cdc_records cur cdc).2

/-- `BasicComposeBuilder` state: configuration plus the current table
(lines 47-70).  The surrogate key name is hard-coded to `'address_sk'`
by `__init__` (line 51). -/
structure Basic where
  natural_key : String
  surrogate_key : String
  init_load : DF
  current_table : DF
deriving DecidableEq, Repr, Inhabited

/-- `BasicComposeBuilder.__init__` (lines 49-56): record the keys and
the initial load, and seed the current table as a copy of it.  No
attribute of the load is validated. -/
def basicBuild (l : DF) (pk : String) : Basic :=
  { natural_key := pk, surrogate_key := "address_sk",
    init_load := l, current_table := l }

/-- `BasicComposeBuilder.ingest_cdc` (lines 58-61). -/
def basicIngest (s : Basic) (cdc : DF) : Basic :=
  { s with current_table := basicIngestCur s.current_table cdc }

/-- `TrackHistory` state.  `builderCur` is the wrapped builder's
`current_table`; `decoCur` is the decorator's own `current_table`
attribute, bound once in `ComposeBuilderDecorator.__init__` (line 77)
to the copy of the initial load that `BasicComposeBuilder.__init__`
made, and never rebound afterwards (the builder's later
re-assignments do not propagate to it).  `nextSk` is the surrogate
key counter, `persisted` the log of files written by
`persist_updates`. -/
structure Track where
  natural_key : String
  surrogate_key : String
  init_load : DF
  builderCur : DF
  decoCur : DF
  hist : DF
  nextSk : Nat
  persisted : List String
deriving DecidableEq, Repr, Inhabited

/-- `TrackHistory.__add_current_historical_records__` (lines 138-143):
assign a fresh surrogate key column (hard-coded `'address_sk'`, line
139), re-index the batch slice by the configured surrogate key (line
140), read `cdc['last_updated']` into `effective_start` (`KeyError`
when the column is absent, line 141), null `effective_end` (line 142),
and append to the historical table (line 143). -/
def addCurrentHist (sk : String) (hist cdc : DF) (n : Nat) :
    Except PdError (DF × Nat) :=
  let cdc1 := cdc.addColVals "address_sk" (freshKeys n cdc.rows.length)
  match cdc1.swapIx sk with
  | .error e => .error e
  | .ok cdc2 =>
    match cdc2.getColVals "last_updated" with
    | none => .error (.keyError "last_updated")
    | some vs =>
      let cdc3 := cdc2.addColVals "effective_start" vs
      let cdc4 := cdc3.addColScalar "effective_end" Value.vnull
      .ok (hist.appendDF cdc4, n + cdc.rows.length)

/-- `TrackHistory(BasicComposeBuilder(...))` construction (lines 75-80
and 94-108).  The decorator copies the builder's fields, then
`initialize_compose_layer` re-initializes the builder's current table
(so `builderCur` is a fresh copy of the builder's `init_load` while
`decoCur` keeps the earlier copy, of equal content) and seeds the
historical table FROM THE MODULE-LEVEL GLOBAL `init_load` (line 102
reads the bare name `init_load`, not `self.init_load`), passed here as
`globalInit`: a surrogate key column of fresh identifiers, re-index by
the surrogate key, `effective_start` from `last_updated` (`KeyError`
when absent) and `effective_end` null. -/
def trackBuild (builder : Basic) (globalInit : DF) (sk0 : Nat) :
    Except PdError Track :=
  let hist1 := globalInit.addColVals "address_sk"
      (freshKeys sk0 globalInit.rows.length)
  match hist1.swapIx builder.surrogate_key with
  | .error e => .error e
  | .ok hist2 =>
    match hist2.getColVals "last_updated" with
    | none => .error (.keyError "last_updated")
    | some vs =>
      let hist3 := hist2.addColVals "effective_start" vs
      let hist4 := hist3.addColScalar "effective_end" Value.vnull
      .ok { natural_key := builder.natural_key,
            surrogate_key := builder.surrogate_key,
            init_load := builder.init_load,
            builderCur := builder.init_load,
            decoCur := builder.current_table,
            hist := hist4,
            nextSk := sk0 + globalInit.rows.length,
            persisted := [] }

/-- `TrackHistory.ingest_cdc` (lines 110-143).  First the wrapped
builder's ingest updates the live current table (line 111); then the
batch is re-partitioned against the decorator's own stale
`current_table` (line 113); the open historical rows are re-keyed by
the natural key, closed at `last_updated - 1 day` for matched labels,
re-keyed back and written into the historical table (lines 121-132);
finally one new open version per batch row is appended (lines
133-136).  The returned `Option PdError` is the exception, if any; the
returned state reflects exactly the mutations performed before the
raise. -/
def trackIngest (s : Track) (cdc : DF) : Track × Option PdError :=
  let s1 := { s with builderCur := basicIngestCur s.builderCur cdc }
  let p := split_cdc_records s.decoCur cdc
  match s.hist.filterNull "effective_end" with
  | .error e => (s1, some e)
  | .ok view =>
    match view.swapIx s.natural_key with
    | .error e => (s1, some e)
    | .ok view1 =>
      match p.1.getColVals "last_updated" with
      | none => (s1, some (.keyError "last_updated"))
      | some _ =>
        let view2 := locSetEnd view1 p.1
        match view2.swapIx s.surrogate_key with
        | .error e => (s1, some e)
        | .ok view3 =>
          let s2 := { s1 with hist := s.hist.ixAssign view3 }
          match addCurrentHist s.surrogate_key s2.hist p.1 s.nextSk with
          | .error e => (s2, some e)
          | .ok hn1 =>
            let s3 := { s2 with hist := hn1.1, nextSk := hn1.2 }
            match addCurrentHist s.surrogate_key s3.hist p.2 s3.nextSk with
            | .error e => (s3, some e)
            | .ok hn2 => ({ s3 with hist := hn2.1, nextSk := hn2.2 }, none)

/-- `TrackHistory.persist_updates` (lines 117-119): writes the current
and historical tables; modelled as a log of destinations.  `ingest`
never touches this log. -/
def trackPersist (s : Track) (dir file : String) : Track :=
  { s with persisted := s.persisted ++
      [dir ++ "current/" ++ file, dir ++ "historical/" ++ file] }

/-!
Caller-visible effect of `TrackHistory.ingest_cdc` on the CDC batch
object itself.  The batch is only ever read inside `ingest_cdc`: the
builder's ingest reads it (`.ix[...] = cdc` and `append` read their
right-hand side), and `split_cdc_records` selects with a boolean mask,
which in pandas returns new DataFrame copies.  The in-place mutations
of `__add_current_historical_records__` (surrogate-key column,
re-indexing, effective columns) are applied to those copies, never to
the caller's frame, which therefore holds its original value after the
call.
-/

/-- Boolean-mask selection returns copies and leaves the selected
frame unchanged: the pair of partitions plus the post-call value of
the argument frame. -/
def maskSplitObs (cur cdc : DF) : (DF × DF) × DF :=
  (split_cdc_records cur cdc, cdc)

/-- The basic ingest only reads the batch; its post-call value. -/
def basicIngestObs (cur cdc : DF) : DF × DF :=
  (basicIngestCur cur cdc, cdc)

/-- `TrackHistory.ingest_cdc` together with the post-call value of the
caller's batch frame (threaded through the two operations that receive
it: the builder's read-only ingest and the copying mask split). -/
def trackIngestObs (s : Track) (cdc : DF) : (Track × Option PdError) × DF :=
  (trackIngest s cdc, (maskSplitObs s.decoCur (basicIngestObs s.builderCur cdc).2).2)

/-! Concrete scenarios used by the counterexamples (values follow the
spec's SCD example: an address table with natural key `address_key`,
an attribute `value`, and timestamps in `last_updated`). -/

def scdRow (v d : Int) : Row :=
  [("value", Value.vint v), ("last_updated", Value.vdate d)]

/-- Initial load: one entity `A1`, value 10, loaded at day `s`. -/
def scdLoad (s : Int) : DF :=
  { ixName := "address_key", cols := ["value", "last_updated"],
    rows := [(Value.vstr "A1", scdRow 10 s)] }

/-- CDC batch: entity `A1`, value 20, stamped day `t`. -/
def scdBatch (t : Int) : DF :=
  { ixName := "address_key", cols := ["value", "last_updated"],
    rows := [(Value.vstr "A1", scdRow 20 t)] }

/-- A one-row CDC batch for key `k`. -/
def oneRowBatch (k : String) (v d : Int) : DF :=
  { ixName := "address_key", cols := ["value", "last_updated"],
    rows := [(Value.vstr k, scdRow v d)] }

def runBuild (b : Except PdError Track) : Track :=
  match b with
  | .ok st => st
  | .error _ => default

/-- The Type4 engine built on `scdLoad s`, with the script's module
global holding the same load (as in `__main__`). -/
def scdStart (s : Int) : Track :=
  runBuild (trackBuild (basicBuild (scdLoad s) "address_key") (scdLoad s) 0)

/-- Two ingests: batch 1 introduces `A2` at day 10, batch 2 updates
`A2` at day 20. -/
def staleRun1 : Track × Option PdError :=
  trackIngest (scdStart 0) (oneRowBatch "A2" 7 10)

def staleRun2 : Track × Option PdError :=
  trackIngest staleRun1.1 (oneRowBatch "A2" 8 20)

/-- Number of rows of the table carrying index label `k`. -/
def countLabel (df : DF) (k : Value) : Nat :=
  (df.rows.filter (fun p => decide (p.1 = k))).length

/-- Number of open versions (null `effective_end`) of natural key `k`
in a historical table whose natural key column is `nk`. -/
def countOpen (df : DF) (nk : String) (k : Value) : Nat :=
  (df.rows.filter (fun p =>
    decide ((aGet p.2 nk).getD Value.vnull = k ∧
            (aGet p.2 "effective_end").getD Value.vnull = Value.vnull))).length

/-- The `effective_start` day of a historical row, when it is a date. -/
def startOf (r : Row) : Option Int :=
  match (aGet r "effective_start").getD Value.vnull with
  | .vdate d => some d
  | _ => none

/-- All `effective_start` days of natural key `k`. -/
def startsOfKey (df : DF) (nk : String) (k : Value) : List Int :=
  df.rows.filterMap (fun p =>
    if (aGet p.2 nk).getD Value.vnull = k then startOf p.2 else none)

/-- The next `effective_start` strictly after day `d`, if any. -/
def nextStart (ds : List Int) (d : Int) : Option Int :=
  (ds.filter (fun x => decide (d < x))).min?

/-- One row of the contiguity condition: when the row's key has a
later version, this row's `effective_end` is that next version's
`effective_start` minus one day. -/
def rowContig (df : DF) (nk : String) (p : Value × Row) : Bool :=
  match startOf p.2 with
  | none => true
  | some d =>
    match nextStart (startsOfKey df nk ((aGet p.2 nk).getD Value.vnull)) d with
    | none => true
    | some nx =>
        decide ((aGet p.2 "effective_end").getD Value.vnull = Value.vdate (nx - 1))

/-- The claimed historical-table invariant: per natural key, at most
one open version, and versions sorted by `effective_start` are closed
exactly one day before the next version starts. -/
def histContig (df : DF) (nk : String) : Bool :=
  df.rows.all (fun p =>
    decide (countOpen df nk ((aGet p.2 nk).getD Value.vnull) ≤ 1)
    && rowContig df nk p)

def c5HistCols : List String :=
  ["address_key", "value", "last_updated", "effective_start", "effective_end"]

/-- The engine state after initialization from `scdLoad s` (the value
`trackBuild` computes there, written out). -/
def c5Init (s : Int) : Track :=
  { natural_key := "address_key", surrogate_key := "address_sk",
    init_load := scdLoad s, builderCur := scdLoad s, decoCur := scdLoad s,
    hist := { ixName := "address_sk", cols := c5HistCols,
              rows := [(Value.vint 0,
                [("address_key", Value.vstr "A1"), ("value", Value.vint 10),
                 ("last_updated", Value.vdate s), ("effective_start", Value.vdate s),
                 ("effective_end", Value.vnull)])] },
    nextSk := 1, persisted := [] }

/-- The engine state after ingesting `scdBatch t` over `c5Init s`: the
day-`s` version closed at `t - 1`, a new open version started at
`t`. -/
def c5Final (t s : Int) : Track :=
  { natural_key := "address_key", surrogate_key := "address_sk",
    init_load := scdLoad s,
    builderCur := { ixName := "address_key", cols := ["value", "last_updated"],
                    rows := [(Value.vstr "A1", scdRow 20 t)] },
    decoCur := scdLoad s,
    hist := { ixName := "address_sk", cols := c5HistCols,
              rows := [(Value.vint 0,
                  [("address_key", Value.vstr "A1"), ("value", Value.vint 10),
                   ("last_updated", Value.vdate s), ("effective_start", Value.vdate s),
                   ("effective_end", Value.vdate (t - 1))]),
                (Value.vint 1,
                  [("address_key", Value.vstr "A1"), ("value", Value.vint 20),
                   ("last_updated", Value.vdate t), ("effective_start", Value.vdate t),
                   ("effective_end", Value.vnull)])] },
    nextSk := 2, persisted := [] }

/-- The second initial load of the C4 scenario: what the module-level
global `init_load` holds, different from the load the builder was
constructed with. -/
def loadB : DF :=
  { ixName := "address_key", cols := ["value", "last_updated"],
    rows := [(Value.vstr "B9", scdRow 99 5)] }

def c4Built : Except PdError Track :=
  trackBuild (basicBuild (scdLoad 0) "address_key") loadB 0

def c4St : Track := runBuild c4Built

/-- A CDC batch with no `last_updated` column. -/
def noTsBatch : DF :=
  { ixName := "address_key", cols := ["value"],
    rows := [(Value.vstr "A1", [("value", Value.vint 99)])] }

/-- A CDC batch with two rows for the same (new) natural key `A2`. -/
def dupBatch : DF :=
  { ixName := "address_key", cols := ["value", "last_updated"],
    rows := [(Value.vstr "A2", scdRow 1 5), (Value.vstr "A2", scdRow 2 6)] }

/-- A current table with columns `x`, `y` and one row, and a batch row
for the same key carrying only `x`. -/
def cur9 : DF :=
  { ixName := "k", cols := ["x", "y"],
    rows := [(Value.vstr "A", [("x", Value.vint 1), ("y", Value.vint 2)])] }

def b9 : DF :=
  { ixName := "k", cols := ["x"],
    rows := [(Value.vstr "A", [("x", Value.vint 10)])] }

/-- C1: the claim fails on the code.  Batch 1 introduces key `A2` (day
10, one open version appended); batch 2 carries a row for `A2` at day
20, whose natural key by then has an open historical version, so the
claim requires that version to be closed at day 19.  But
`TrackHistory.ingest_cdc` partitions against the decorator's stale
`current_table` attribute (bound at construction to the initial-load
copy and never rebound, lines 77 and 113), so the `A2` row is
classified as new again: the open version of batch 1 (surrogate key 1)
keeps a null `effective_end` and `A2` ends with two open versions. -/
theorem c1_stale_partition_bug :
    staleRun1.2 = none ∧ staleRun2.2 = none ∧
    (staleRun2.1.hist.getRow (Value.vint 1)).map (fun r => aGet r "effective_end")
      = some (some Value.vnull) ∧
    countOpen staleRun2.1.hist "address_key" (Value.vstr "A2") = 2 := by
  decide

/-- C2: the claimed invariant is not preserved by every ingest of a
well-formed batch.  In the two-batch run of `staleRun2` (each batch
has one row per key; `A2`'s timestamps strictly increase from 10 to
20), the invariant holds after batch 1 and is violated after batch 2:
`A2` has two open versions and the day-10 version is not closed at day
19 (consequence of the stale partition table, line 113). -/
theorem c2_invariant_violated :
    histContig staleRun1.1.hist "address_key" = true ∧
    staleRun2.2 = none ∧
    histContig staleRun2.1.hist "address_key" = false := by
  decide

/-- C4: the claim fails on the code.  The engine is constructed from
`scdLoad 0` (entity `A1`) while the module-level global `init_load`
holds `loadB` (entity `B9`); line 102 reads the bare global name, so
the historical table is seeded from `loadB`: its single row carries
`B9`'s attributes and no historical row carries the supplied load's
key `A1`. -/
theorem c4_global_init_load_bug :
    c4Built.toOption = some c4St ∧
    c4St.init_load = scdLoad 0 ∧
    c4St.hist.rows.length = 1 ∧
    (c4St.hist.getRow (Value.vint 0)).map (fun r => aGet r "address_key")
      = some (some (Value.vstr "B9")) ∧
    c4St.hist.rows.all (fun p =>
      decide (¬ (aGet p.2 "address_key").getD Value.vnull = Value.vstr "A1"))
      = true := by
  decide

def c5Run : Track × Option PdError := trackIngest (scdStart 0) (scdBatch 0)

/-- C5 counterexample: a CDC row for `A1` stamped day 0, equal to the
open version's `effective_start` (day 0).  `ingest_cdc` raises nothing
(the code has no ordering check and no `OrderingViolationError`
exists) and produces an inverted interval: the closed version has
`effective_start` day 0 and `effective_end` day -1. -/
theorem c5_counterexample :
    c5Run.2 = none ∧
    (c5Run.1.hist.getRow (Value.vint 0)).map (fun r => aGet r "effective_start")
      = some (some (Value.vdate 0)) ∧
    (c5Run.1.hist.getRow (Value.vint 0)).map (fun r => aGet r "effective_end")
      = some (some (Value.vdate (-1))) := by
  decide

def c6Run : Track × Option PdError := trackIngest (scdStart 0) noTsBatch

/-- C6 counterexample: `TrackHistory.ingest_cdc` of a batch with no
`last_updated` column fails with a `KeyError`, but the current table
is not as it was before the call: the builder's upsert (line 111) ran
before the failing historical step (line 129) and overwrote `A1`. -/
theorem c6_counterexample :
    c6Run.2 = some (PdError.keyError "last_updated") ∧
    ¬ c6Run.1.builderCur = (scdStart 0).builderCur ∧
    c6Run.1.hist = (scdStart 0).hist := by
  decide

def c7TrackRun : Track × Option PdError := trackIngest (scdStart 0) dupBatch

/-- C7 counterexample: a CDC batch with two rows for the same (new)
natural key `A2` is applied by both engines without any error
(`KeyCollisionError` does not exist in the code): both rows are
appended and the current table ends with two rows labelled `A2`. -/
theorem c7_counterexample :
    countLabel (basicIngestCur (scdLoad 0) dupBatch) (Value.vstr "A2") = 2 ∧
    c7TrackRun.2 = none ∧
    countLabel c7TrackRun.1.builderCur (Value.vstr "A2") = 2 := by
  decide

/-- An initial load in which the natural key attribute `address_key`
appears nowhere (neither as index name nor as a column). -/
def loadNoNK : DF :=
  { ixName := "idx", cols := ["value"],
    rows := [(Value.vint 0, [("value", Value.vint 1)])] }

/-- C8 counterexample: construction with an initial load missing the
natural key attribute performs no validation and raises nothing — the
current table is simply the load (claim: `SchemaError`).  And the
basic engine's ingest of a batch with no timestamp attribute also
completes normally, upserting the row (claim: `SchemaError`). -/
theorem c8_counterexample :
    (basicBuild loadNoNK "address_key").current_table = loadNoNK ∧
    ((basicIngest (basicBuild (scdLoad 0) "address_key") noTsBatch).current_table.getRow
        (Value.vstr "A1")).map (fun r => aGet r "value")
      = some (some (Value.vint 99)) := by
  decide

/-- C9 counterexample: upserting the row `{x = 10}` (no `y`) over the
stored row `{x = 1, y = 2}` does not keep `y = 2`: pandas aligns the
assigned row to the table's columns and the absent attribute is
overwritten with null. -/
theorem c9_counterexample :
    ((basicIngestCur cur9 b9).getRow (Value.vstr "A")).map (fun r => aGet r "y")
      = some (some Value.vnull) ∧
    ¬ ((basicIngestCur cur9 b9).getRow (Value.vstr "A")).map (fun r => aGet r "y")
      = some (some (Value.vint 2)) := by
  decide

def c10Run : (Track × Option PdError) × DF := trackIngestObs (scdStart 0) (scdBatch 5)

/-- C10 counterexample: after `ingest_cdc`, the caller's batch frame
is exactly the frame passed in — still indexed by the natural key and
without any `address_sk`, `effective_start` or `effective_end` column.
The columns are added to the partition copies returned by the boolean
mask of `split_cdc_records`, not to the caller's object. -/
theorem c10_counterexample :
    c10Run.2 = scdBatch 5 ∧
    c10Run.2.ixName = "address_key" ∧
    ¬ "address_sk" ∈ c10Run.2.cols ∧
    ¬ "effective_start" ∈ c10Run.2.cols := by
  decide

/-! General lemmas about the row and frame operations. -/

theorem aGet_alignRow (cs : List String) (r : Row) (c : String) :
    aGet (alignRow cs r) c
      = if c ∈ cs then some ((aGet r c).getD Value.vnull) else none := by
  induction cs with
  | nil => simp [alignRow, aGet]
  | cons c' cs ih =>
    simp only [alignRow, List.map_cons, aGet] at ih ⊢
    by_cases h : c' = c
    · subst h
      simp
    · have h2 : ¬ c = c' := fun hh => h hh.symm
      simp [h, h2, ih, List.mem_cons]

theorem alignRow_congr {cs : List String} {r1 r2 : Row}
    (h : ∀ c ∈ cs, aGet r1 c = aGet r2 c) : alignRow cs r1 = alignRow cs r2 := by
  unfold alignRow
  exact List.map_congr_left (fun c hc => by rw [h c hc])

theorem alignRow_alignRow (cs : List String) (r : Row) :
    alignRow cs (alignRow cs r) = alignRow cs r := by
  show cs.map (fun c => (c, (aGet (alignRow cs r) c).getD Value.vnull))
      = cs.map (fun c => (c, (aGet r c).getD Value.vnull))
  apply List.map_congr_left
  intro c hc
  rw [aGet_alignRow, if_pos hc]
  rfl

theorem aGet_eq_none_of_not_mem {r : Row} {c : String} (h : ¬ c ∈ keysOf r) :
    aGet r c = none := by
  induction r with
  | nil => rfl
  | cons q r ih =>
    simp only [keysOf, List.map_cons, List.mem_cons] at h
    push_neg at h
    simp only [aGet]
    rw [if_neg fun hh => h.1 hh.symm]
    exact ih (by simpa [keysOf] using h.2)

theorem alignRow_keysOf (r : Row) (hnd : (keysOf r).Nodup) :
    alignRow (keysOf r) r = r := by
  induction r with
  | nil => rfl
  | cons q r ih =>
    have hnd2 := List.nodup_cons.mp hnd
    show (q.1, (aGet (q :: r) q.1).getD Value.vnull)
        :: (keysOf r).map (fun c => (c, (aGet (q :: r) c).getD Value.vnull)) = q :: r
    have hhead : aGet (q :: r) q.1 = some q.2 := by simp [aGet]
    rw [hhead]
    have htail : (keysOf r).map (fun c => (c, (aGet (q :: r) c).getD Value.vnull))
        = (keysOf r).map (fun c => (c, (aGet r c).getD Value.vnull)) := by
      apply List.map_congr_left
      intro c hc
      have hne : ¬ q.1 = c := fun hh => hnd2.1 (hh ▸ hc)
      simp [aGet, hne]
    rw [htail]
    exact congrArg (q :: ·) (ih hnd2.2)

theorem alignRow_of_keysEq {r : Row} {cs : List String}
    (hk : keysOf r = cs) (hnd : cs.Nodup) : alignRow cs r = r := by
  subst hk
  exact alignRow_keysOf r hnd

theorem findL_nil (k : Value) : findL [] k = none := rfl

theorem findL_cons (q : Value × Row) (l : List (Value × Row)) (k : Value) :
    findL (q :: l) k = if q.1 = k then some q else findL l k := by
  unfold findL
  by_cases h : q.1 = k
  · rw [List.find?_cons_of_pos _ (by simpa using h), if_pos h]
  · rw [List.find?_cons_of_neg _ (by simpa using h), if_neg h]

theorem findL_append (l1 l2 : List (Value × Row)) (k : Value) :
    findL (l1 ++ l2) k
      = match findL l1 k with
        | some p => some p
        | none => findL l2 k := by
  induction l1 with
  | nil => simp [findL_nil]
  | cons q l1 ih =>
    rw [List.cons_append, findL_cons, findL_cons]
    by_cases h : q.1 = k
    · simp [h]
    · simp only [if_neg h]
      exact ih

theorem findL_map (g : Value × Row → Row) (l : List (Value × Row)) (k : Value) :
    findL (l.map (fun p => (p.1, g p))) k
      = (findL l k).map (fun p => (p.1, g p)) := by
  induction l with
  | nil => rfl
  | cons q l ih =>
    rw [List.map_cons, findL_cons, findL_cons]
    by_cases h : q.1 = k
    · simp [h]
    · simp only [if_neg h, ih]

theorem findL_filter_pos (q : Value × Row → Bool) (l : List (Value × Row)) (k : Value)
    (h : ∀ p, p.1 = k → q p = true) :
    findL (l.filter q) k = findL l k := by
  induction l with
  | nil => rfl
  | cons a l ih =>
    rw [List.filter_cons]
    by_cases hq : q a = true
    · rw [if_pos (by simpa using hq), findL_cons, findL_cons]
      by_cases ha : a.1 = k
      · simp [ha]
      · simp only [if_neg ha]
        exact ih
    · rw [if_neg (by simpa using hq), findL_cons]
      have ha : ¬ a.1 = k := fun hh => hq (h a hh)
      rw [if_neg ha]
      exact ih

theorem findL_filter_of_none (q : Value × Row → Bool) (l : List (Value × Row)) (k : Value)
    (h : findL l k = none) :
    findL (l.filter q) k = none := by
  induction l with
  | nil => rfl
  | cons a l ih =>
    rw [findL_cons] at h
    by_cases ha : a.1 = k
    · rw [if_pos ha] at h
      exact absurd h (by simp)
    · rw [if_neg ha] at h
      rw [List.filter_cons]
      by_cases hq : q a = true
      · rw [if_pos (by simpa using hq), findL_cons, if_neg ha]
        exact ih h
      · rw [if_neg (by simpa using hq)]
        exact ih h

theorem findL_eq_none (l : List (Value × Row)) (k : Value) :
    findL l k = none ↔ ¬ k ∈ l.map Prod.fst := by
  induction l with
  | nil => simp [findL_nil]
  | cons a l ih =>
    rw [findL_cons]
    by_cases ha : a.1 = k
    · simp [ha]
    · simp only [if_neg ha, ih, List.map_cons, List.mem_cons]
      have : ¬ k = a.1 := fun hh => ha hh.symm
      simp [this]

theorem findL_some {l : List (Value × Row)} {k : Value} {p : Value × Row}
    (h : findL l k = some p) : p.1 = k ∧ p ∈ l := by
  unfold findL at h
  refine ⟨by simpa using List.find?_some h, List.mem_of_find?_eq_some h⟩

theorem getRow_eq_none (df : DF) (k : Value) :
    df.getRow k = none ↔ ¬ k ∈ df.labels := by
  unfold DF.getRow DF.labels
  rw [← findL_eq_none]
  cases findL df.rows k <;> simp

theorem getRow_of_mem {df : DF} {k : Value} (h : k ∈ df.labels) :
    ∃ r, df.getRow k = some r := by
  cases hr : df.getRow k with
  | none => exact absurd h ((getRow_eq_none df k).mp hr)
  | some r => exact ⟨r, rfl⟩

theorem getRow_mem {df : DF} {k : Value} {r : Row} (h : df.getRow k = some r) :
    (k, r) ∈ df.rows := by
  unfold DF.getRow at h
  cases hf : findL df.rows k with
  | none => rw [hf] at h; exact absurd h (by simp)
  | some p =>
    rw [hf] at h
    have hp := findL_some hf
    have : p.2 = r := by simpa using h
    have hpk : p = (k, r) := by
      cases p
      simp_all
    exact hpk ▸ hp.2

theorem ixAssign_getRow (t u : DF) (k : Value) :
    (t.ixAssign u).getRow k
      = (t.getRow k).map (fun row =>
          match u.getRow k with
          | some r => alignRow t.cols r
          | none => row) := by
  unfold DF.ixAssign DF.getRow
  simp only
  rw [findL_map]
  cases hf : findL t.rows k with
  | none => rfl
  | some p =>
    have hk := (findL_some hf).1
    subst hk
    rfl

theorem appendDF_cols (t u : DF) :
    (t.appendDF u).cols = t.cols ++ u.cols.filter (fun c => decide (¬ c ∈ t.cols)) := rfl

theorem appendDF_getRow (t u : DF) (k : Value) :
    (t.appendDF u).getRow k
      = match t.getRow k with
        | some r => some (alignRow (t.appendDF u).cols r)
        | none => (u.getRow k).map (alignRow (t.appendDF u).cols) := by
  unfold DF.appendDF DF.getRow
  simp only
  rw [findL_append, findL_map, findL_map]
  cases hf : findL t.rows k with
  | some p => rfl
  | none =>
    cases hg : findL u.rows k with
    | some p => rfl
    | none => rfl

theorem split_cols (cur cdc : DF) :
    (split_cdc_records cur cdc).1.cols = cdc.cols
      ∧ (split_cdc_records cur cdc).2.cols = cdc.cols := ⟨rfl, rfl⟩

theorem split_fst_getRow {cur : DF} (cdc : DF) {k : Value} (h : k ∈ cur.labels) :
    (split_cdc_records cur cdc).1.getRow k = cdc.getRow k := by
  unfold split_cdc_records DF.getRow
  simp only
  rw [findL_filter_pos]
  intro p hp
  simp [hp, h]

theorem split_fst_getRow_none {cur : DF} (cdc : DF) {k : Value} (h : ¬ k ∈ cur.labels) :
    (split_cdc_records cur cdc).1.getRow k = none := by
  unfold split_cdc_records DF.getRow
  simp only
  cases hf : findL (cdc.rows.filter (fun p => decide (p.1 ∈ cur.labels))) k with
  | none => rfl
  | some p =>
    have hp := findL_some hf
    have hmem := List.of_mem_filter hp.2
    rw [hp.1] at hmem
    exact absurd (by simpa using hmem) h

theorem split_snd_getRow {cur : DF} (cdc : DF) {k : Value} (h : ¬ k ∈ cur.labels) :
    (split_cdc_records cur cdc).2.getRow k = cdc.getRow k := by
  unfold split_cdc_records DF.getRow
  simp only
  rw [findL_filter_pos]
  intro p hp
  simp [hp, h]

theorem split_getRow_of_none (cur : DF) {cdc : DF} {k : Value} (h : cdc.getRow k = none) :
    (split_cdc_records cur cdc).1.getRow k = none
      ∧ (split_cdc_records cur cdc).2.getRow k = none := by
  unfold DF.getRow at h
  have hn : findL cdc.rows k = none := by
    cases hf : findL cdc.rows k with
    | none => rfl
    | some p => rw [hf] at h; exact absurd h (by simp)
  constructor <;>
    · unfold split_cdc_records DF.getRow
      simp only
      rw [findL_filter_of_none _ _ _ hn]
      rfl

theorem trackIngest_cur (s : Track) (b : DF) :
    (trackIngest s b).1.builderCur = basicIngestCur s.builderCur b := by
  unfold trackIngest
  dsimp only
  repeat' split
  all_goals rfl

theorem basicIngestCur_cols (cur cdc : DF) (hcols : cdc.cols = cur.cols) :
    (basicIngestCur cur cdc).cols = cur.cols := by
  unfold basicIngestCur
  rw [appendDF_cols]
  have h2 : (split_cdc_records cur cdc).2.cols = cdc.cols := rfl
  have h1 : (cur.ixAssign (split_cdc_records cur cdc).1).cols = cur.cols := rfl
  rw [h1, h2, hcols]
  rw [List.filter_eq_nil_iff.mpr, List.append_nil]
  intro c hc
  simp [hc]

theorem basicIngestCur_getRow_mem (cur cdc : DF)
    (hnd : cur.cols.Nodup)
    (hcols : cdc.cols = cur.cols)
    (hcdc : ∀ p ∈ cdc.rows, keysOf p.2 = cdc.cols)
    (k : Value) (r : Row) (h : cdc.getRow k = some r) :
    (basicIngestCur cur cdc).getRow k = some r := by
  have hrk : keysOf r = cur.cols := by
    rw [← hcols]
    exact hcdc (k, r) (getRow_mem h)
  have hali : alignRow cur.cols r = r := alignRow_of_keysEq hrk hnd
  have hcs : (cur.ixAssign (split_cdc_records cur cdc).1).appendDF
      (split_cdc_records cur cdc).2 = basicIngestCur cur cdc := rfl
  have hcolres : (basicIngestCur cur cdc).cols = cur.cols := basicIngestCur_cols cur cdc hcols
  unfold basicIngestCur
  rw [appendDF_getRow]
  have hxcols : (cur.ixAssign (split_cdc_records cur cdc).1).cols = cur.cols := rfl
  by_cases hk : k ∈ cur.labels
  · obtain ⟨rc, hrc⟩ := getRow_of_mem hk
    have hx : (cur.ixAssign (split_cdc_records cur cdc).1).getRow k
        = some (alignRow cur.cols r) := by
      rw [ixAssign_getRow, hrc, split_fst_getRow cdc hk, h]
      rfl
    rw [hx]
    simp only
    rw [hcs, hcolres, hali, alignRow_of_keysEq hrk hnd]
  · have hx : (cur.ixAssign (split_cdc_records cur cdc).1).getRow k = none := by
      rw [ixAssign_getRow]
      rw [(getRow_eq_none cur k).mpr hk]
      rfl
    rw [hx]
    simp only
    rw [split_snd_getRow cdc hk, h]
    simp only [Option.map_some']
    rw [hcs, hcolres, hali]

theorem basicIngestCur_getRow_not_mem (cur cdc : DF)
    (hnd : cur.cols.Nodup)
    (hcols : cdc.cols = cur.cols)
    (hcur : ∀ p ∈ cur.rows, keysOf p.2 = cur.cols)
    (k : Value) (h : cdc.getRow k = none) :
    (basicIngestCur cur cdc).getRow k = cur.getRow k := by
  obtain ⟨h1, h2⟩ := split_getRow_of_none cur h
  have hcs : (cur.ixAssign (split_cdc_records cur cdc).1).appendDF
      (split_cdc_records cur cdc).2 = basicIngestCur cur cdc := rfl
  have hcolres : (basicIngestCur cur cdc).cols = cur.cols := basicIngestCur_cols cur cdc hcols
  unfold basicIngestCur
  rw [appendDF_getRow]
  have hx : (cur.ixAssign (split_cdc_records cur cdc).1).getRow k = cur.getRow k := by
    rw [ixAssign_getRow, h1]
    cases cur.getRow k <;> rfl
  rw [hx]
  cases hc : cur.getRow k with
  | none =>
    simp only
    rw [h2]
    rfl
  | some rc =>
    simp only
    rw [hcs, hcolres]
    rw [alignRow_of_keysEq (hcur (k, rc) (getRow_mem hc)) hnd]

/-- C3: for every engine, ingest of a batch with at most one row per
natural key upserts the current table: every key of the batch is
mapped to exactly the batch's row for it, and every other key keeps
its previous row.  The hypotheses state that the current table and the
batch share the same duplicate-free schema and carry full rows (the
spec's shared-schema assumption for CDC input); the last conjunct
shows the history engine's current table is updated by exactly the
same function. -/
theorem c3_upsert_correct (cur cdc : DF)
    (hnd : cur.cols.Nodup)
    (hcols : cdc.cols = cur.cols)
    (hcur : ∀ p ∈ cur.rows, keysOf p.2 = cur.cols)
    (hcdc : ∀ p ∈ cdc.rows, keysOf p.2 = cdc.cols)
    (hone : cdc.labels.Nodup) :
    (∀ k r, cdc.getRow k = some r → (basicIngestCur cur cdc).getRow k = some r)
    ∧ (∀ k, cdc.getRow k = none → (basicIngestCur cur cdc).getRow k = cur.getRow k)
    ∧ (∀ (s : Track) (b : DF),
        (trackIngest s b).1.builderCur = basicIngestCur s.builderCur b) :=
  ⟨fun k r h => basicIngestCur_getRow_mem cur cdc hnd hcols hcdc k r h,
   fun k h => basicIngestCur_getRow_not_mem cur cdc hnd hcols hcur k h,
   trackIngest_cur⟩

/-- Witness for C3 at the spec's SCD scenario. -/
theorem c3_upsert_correct_witness :
    ((scdLoad 0).cols.Nodup ∧ (scdBatch 5).cols = (scdLoad 0).cols
      ∧ (∀ p ∈ (scdLoad 0).rows, keysOf p.2 = (scdLoad 0).cols)
      ∧ (∀ p ∈ (scdBatch 5).rows, keysOf p.2 = (scdBatch 5).cols)
      ∧ (scdBatch 5).labels.Nodup)
    ∧ ((∀ k r, (scdBatch 5).getRow k = some r →
          (basicIngestCur (scdLoad 0) (scdBatch 5)).getRow k = some r)
      ∧ (∀ k, (scdBatch 5).getRow k = none →
          (basicIngestCur (scdLoad 0) (scdBatch 5)).getRow k = (scdLoad 0).getRow k)
      ∧ (∀ (s : Track) (b : DF),
          (trackIngest s b).1.builderCur = basicIngestCur s.builderCur b)) :=
  ⟨⟨by decide, by decide, by decide, by decide, by decide⟩,
   c3_upsert_correct (scdLoad 0) (scdBatch 5)
     (by decide) (by decide) (by decide) (by decide) (by decide)⟩

/-- C9 amended: upsert has aligned full-row replacement semantics, not
partial replacement.  For an input row whose key exists, the stored
row becomes the input row aligned to the table's columns: attributes
present in the input overwrite, and attributes absent from the input
are overwritten with null — they do not keep their previous values.
Rows with absent keys are appended (aligned to the result columns the
same way). -/
theorem c9_amended (cur cdc : DF) :
    (∀ k r, k ∈ cur.labels → cdc.getRow k = some r →
      ∃ rr, (basicIngestCur cur cdc).getRow k = some rr
        ∧ ∀ c ∈ cur.cols, aGet rr c = some ((aGet r c).getD Value.vnull))
    ∧ (∀ k r, ¬ k ∈ cur.labels → cdc.getRow k = some r →
      ∃ rr, (basicIngestCur cur cdc).getRow k = some rr
        ∧ ∀ c ∈ (basicIngestCur cur cdc).cols,
            aGet rr c = some ((aGet r c).getD Value.vnull)) := by
  have hcolform : (basicIngestCur cur cdc).cols
      = cur.cols ++ (split_cdc_records cur cdc).2.cols.filter
          (fun c => decide (¬ c ∈ cur.cols)) := rfl
  constructor
  · intro k r hk h
    obtain ⟨rc, hrc⟩ := getRow_of_mem hk
    have hx : (cur.ixAssign (split_cdc_records cur cdc).1).getRow k
        = some (alignRow cur.cols r) := by
      rw [ixAssign_getRow, hrc, split_fst_getRow cdc hk, h]
      rfl
    have hres : (basicIngestCur cur cdc).getRow k
        = some (alignRow (basicIngestCur cur cdc).cols (alignRow cur.cols r)) := by
      show ((cur.ixAssign (split_cdc_records cur cdc).1).appendDF
          (split_cdc_records cur cdc).2).getRow k = _
      rw [appendDF_getRow, hx]
      rfl
    refine ⟨_, hres, ?_⟩
    intro c hc
    rw [aGet_alignRow]
    rw [if_pos (show c ∈ (basicIngestCur cur cdc).cols by
      rw [hcolform]; exact List.mem_append_left _ hc)]
    rw [aGet_alignRow, if_pos hc]
    rfl
  · intro k r hk h
    have hx : (cur.ixAssign (split_cdc_records cur cdc).1).getRow k = none := by
      rw [ixAssign_getRow, (getRow_eq_none cur k).mpr hk]
      rfl
    have hres : (basicIngestCur cur cdc).getRow k
        = some (alignRow (basicIngestCur cur cdc).cols r) := by
      show ((cur.ixAssign (split_cdc_records cur cdc).1).appendDF
          (split_cdc_records cur cdc).2).getRow k = _
      rw [appendDF_getRow, hx]
      simp only
      rw [split_snd_getRow cdc hk, h]
      rfl
    refine ⟨_, hres, ?_⟩
    intro c hc
    rw [aGet_alignRow, if_pos hc]

/-- Witness for C9 amended: over a table with columns `x, y`, the
batch row `{x = 10}` yields a stored row with `x = 10` and `y`
null. -/
theorem c9_amended_witness :
    (Value.vstr "A" ∈ cur9.labels
      ∧ b9.getRow (Value.vstr "A") = some [("x", Value.vint 10)])
    ∧ (∃ rr, (basicIngestCur cur9 b9).getRow (Value.vstr "A") = some rr
        ∧ ∀ c ∈ cur9.cols,
            aGet rr c = some ((aGet [("x", Value.vint 10)] c).getD Value.vnull)) :=
  ⟨⟨by decide, by decide⟩,
   (c9_amended cur9 b9).1 (Value.vstr "A") [("x", Value.vint 10)]
     (by decide) (by decide)⟩

theorem count_map_label (g : Value × Row → Row) (l : List (Value × Row)) (k : Value) :
    ((l.map (fun p => (p.1, g p))).filter (fun p => decide (p.1 = k))).length
      = (l.filter (fun p => decide (p.1 = k))).length := by
  induction l with
  | nil => rfl
  | cons a l ih =>
    rw [List.map_cons, List.filter_cons, List.filter_cons]
    by_cases ha : a.1 = k
    · rw [if_pos (by simpa using ha), if_pos (by simpa using ha)]
      simp [ih]
    · rw [if_neg (by simpa using ha), if_neg (by simpa using ha)]
      exact ih

theorem count_zero_of_not_mem (l : List (Value × Row)) (k : Value)
    (h : ¬ k ∈ l.map Prod.fst) :
    (l.filter (fun p => decide (p.1 = k))).length = 0 := by
  induction l with
  | nil => rfl
  | cons a l ih =>
    simp only [List.map_cons, List.mem_cons] at h
    push_neg at h
    rw [List.filter_cons, if_neg (by simpa using fun hh => h.1 hh.symm)]
    exact ih h.2

theorem count_filter_true (q : Value × Row → Bool) (l : List (Value × Row)) (k : Value)
    (h : ∀ p, p.1 = k → q p = true) :
    ((l.filter q).filter (fun p => decide (p.1 = k))).length
      = (l.filter (fun p => decide (p.1 = k))).length := by
  induction l with
  | nil => rfl
  | cons a l ih =>
    rw [List.filter_cons]
    by_cases hq : q a = true
    · rw [if_pos (by simpa using hq), List.filter_cons, List.filter_cons]
      by_cases ha : a.1 = k
      · rw [if_pos (by simpa using ha), if_pos (by simpa using ha)]
        rw [List.length_cons, List.length_cons, ih]
      · rw [if_neg (by simpa using ha), if_neg (by simpa using ha)]
        exact ih
    · rw [if_neg (by simpa using hq), List.filter_cons]
      have ha : ¬ a.1 = k := fun hh => hq (h a hh)
      rw [if_neg (by simpa using ha)]
      exact ih

theorem countLabel_appendDF (t u : DF) (k : Value) :
    countLabel (t.appendDF u) k = countLabel t k + countLabel u k := by
  show ((t.rows.map (fun p => (p.1, alignRow (t.appendCols u) p.2))
      ++ u.rows.map (fun p => (p.1, alignRow (t.appendCols u) p.2))).filter
        (fun p => decide (p.1 = k))).length = _
  rw [List.filter_append, List.length_append, count_map_label, count_map_label]
  rfl

theorem countLabel_ixAssign (t u : DF) (k : Value) :
    countLabel (t.ixAssign u) k = countLabel t k :=
  count_map_label
    (fun p => match u.getRow p.1 with | some r => alignRow t.cols r | none => p.2) t.rows k

theorem countLabel_split_snd {cur : DF} (cdc : DF) {k : Value} (hk : ¬ k ∈ cur.labels) :
    countLabel (split_cdc_records cur cdc).2 k = countLabel cdc k :=
  count_filter_true _ cdc.rows k (fun p hp => by simp [hp, hk])

/-- C7 amended: no collision detection exists.  Ingest of a batch with
several rows for the same natural key raises nothing; for a key not
already in the current table, every duplicate row is appended, so the
current table ends up with exactly as many rows for that key as the
batch contained (the basic ingest is a total function, and by the
second conjunct the history engine's current table gets the same
value; `KeyCollisionError` appears nowhere in the code). -/
theorem c7_amended (cur cdc : DF) (k : Value) (hk : ¬ k ∈ cur.labels) :
    countLabel (basicIngestCur cur cdc) k = countLabel cdc k
    ∧ ∀ (s : Track) (b : DF),
        (trackIngest s b).1.builderCur = basicIngestCur s.builderCur b := by
  constructor
  · show countLabel ((cur.ixAssign (split_cdc_records cur cdc).1).appendDF
        (split_cdc_records cur cdc).2) k = countLabel cdc k
    rw [countLabel_appendDF, countLabel_ixAssign]
    have h0 : countLabel cur k = 0 := count_zero_of_not_mem cur.rows k hk
    rw [h0, countLabel_split_snd cdc hk, Nat.zero_add]
  · exact trackIngest_cur

/-- Witness for C7 amended: the duplicate batch for the unseen key
`A2` yields two `A2` rows. -/
theorem c7_amended_witness :
    (¬ Value.vstr "A2" ∈ (scdLoad 0).labels)
    ∧ (countLabel (basicIngestCur (scdLoad 0) dupBatch) (Value.vstr "A2")
        = countLabel dupBatch (Value.vstr "A2")
      ∧ ∀ (s : Track) (b : DF),
          (trackIngest s b).1.builderCur = basicIngestCur s.builderCur b) :=
  ⟨by decide, c7_amended (scdLoad 0) dupBatch (Value.vstr "A2") (by decide)⟩

theorem swapIx_ok {df : DF} {k : String} (h : k ∈ df.ixName :: df.cols) :
    df.swapIx k
      = Except.ok { ixName := k, cols := (df.ixName :: df.cols).erase k,
                    rows := df.rows.map (swapRow df.ixName k) } := by
  unfold DF.swapIx
  rw [if_pos h]

theorem getColVals_pos {df : DF} {c : String} (h : c ∈ df.cols) :
    df.getColVals c
      = some (df.rows.map (fun p => (aGet p.2 c).getD Value.vnull)) := by
  unfold DF.getColVals
  rw [if_pos h]

theorem getColVals_neg {df : DF} {c : String} (h : ¬ c ∈ df.cols) :
    df.getColVals c = none := by
  unfold DF.getColVals
  rw [if_neg h]

theorem filterNull_ok {df : DF} {c : String} (h : c ∈ df.cols) :
    df.filterNull c
      = Except.ok { df with rows := df.rows.filter (fun p =>
          decide ((aGet p.2 c).getD Value.vnull = Value.vnull)) } := by
  unfold DF.filterNull
  rw [if_pos h]

theorem addColVals_cols (df : DF) (c : String) (vs : List Value) :
    (df.addColVals c vs).cols
      = if c ∈ df.cols then df.cols else df.cols ++ [c] := rfl

theorem mem_addColVals_self (df : DF) (c : String) (vs : List Value) :
    c ∈ (df.addColVals c vs).cols := by
  rw [addColVals_cols]
  by_cases h : c ∈ df.cols
  · rw [if_pos h]; exact h
  · rw [if_neg h]; exact List.mem_append_right _ (List.mem_singleton.mpr rfl)

theorem mem_addColVals_of_mem {df : DF} {c' : String} (c : String) (vs : List Value)
    (h : c' ∈ df.cols) : c' ∈ (df.addColVals c vs).cols := by
  rw [addColVals_cols]
  by_cases hm : c ∈ df.cols
  · rw [if_pos hm]; exact h
  · rw [if_neg hm]; exact List.mem_append_left _ h

theorem addCurrentHist_isOk (hist c : DF) (n : Nat)
    (hlu : "last_updated" ∈ c.cols) :
    ∃ o, addCurrentHist "address_sk" hist c n = Except.ok o := by
  unfold addCurrentHist
  dsimp only
  have hmem : "address_sk" ∈ (c.addColVals "address_sk" (freshKeys n c.rows.length)).ixName
      :: (c.addColVals "address_sk" (freshKeys n c.rows.length)).cols :=
    List.mem_cons_of_mem _ (mem_addColVals_self c _ _)
  rw [swapIx_ok hmem]
  dsimp only
  have hlu2 : "last_updated"
      ∈ ((c.addColVals "address_sk" (freshKeys n c.rows.length)).ixName
          :: (c.addColVals "address_sk" (freshKeys n c.rows.length)).cols).erase "address_sk" := by
    refine (List.mem_erase_of_ne (by decide)).mpr ?_
    exact List.mem_cons_of_mem _ (mem_addColVals_of_mem _ _ hlu)
  rw [getColVals_pos hlu2]
  exact ⟨_, rfl⟩

/-- C6 amended: a failed ingest is not batch-atomic on the current
table.  Whenever `TrackHistory.ingest_cdc` raises, the historical
table, the decorator's snapshot table and the persistence log are
unchanged (every raise point precedes the historical writes), but the
current table has already been updated by the builder's upsert, which
runs first; persistence is never invoked by ingest (the log conjunct).
The hypothesis `hsk` records the surrogate key name the constructor
hard-codes. -/
theorem c6_amended (s s2 : Track) (cdc : DF) (e : PdError)
    (hsk : s.surrogate_key = "address_sk")
    (h : trackIngest s cdc = (s2, some e)) :
    s2.hist = s.hist ∧ s2.decoCur = s.decoCur ∧ s2.persisted = s.persisted
    ∧ s2.builderCur = basicIngestCur s.builderCur cdc := by
  unfold trackIngest at h
  dsimp only at h
  cases h1 : s.hist.filterNull "effective_end" with
  | error e1 =>
    rw [h1] at h
    dsimp only at h
    injection h with ha hb
    rw [← ha]
    exact ⟨rfl, rfl, rfl, rfl⟩
  | ok view =>
    rw [h1] at h
    dsimp only at h
    cases h2 : view.swapIx s.natural_key with
    | error e2 =>
      rw [h2] at h
      dsimp only at h
      injection h with ha hb
      rw [← ha]
      exact ⟨rfl, rfl, rfl, rfl⟩
    | ok view1 =>
      rw [h2] at h
      dsimp only at h
      cases h3 : (split_cdc_records s.decoCur cdc).1.getColVals "last_updated" with
      | none =>
        rw [h3] at h
        dsimp only at h
        injection h with ha hb
        rw [← ha]
        exact ⟨rfl, rfl, rfl, rfl⟩
      | some vs =>
        rw [h3] at h
        dsimp only at h
        have hlu : "last_updated" ∈ (split_cdc_records s.decoCur cdc).1.cols := by
          by_contra hn
          rw [getColVals_neg hn] at h3
          exact absurd h3 (by simp)
        cases h4 : (locSetEnd view1 (split_cdc_records s.decoCur cdc).1).swapIx
            s.surrogate_key with
        | error e4 =>
          rw [h4] at h
          dsimp only at h
          injection h with ha hb
          rw [← ha]
          exact ⟨rfl, rfl, rfl, rfl⟩
        | ok view3 =>
          rw [h4] at h
          dsimp only at h
          obtain ⟨o1, ho1⟩ := addCurrentHist_isOk (s.hist.ixAssign view3)
            (split_cdc_records s.decoCur cdc).1 s.nextSk hlu
          rw [hsk] at h
          rw [ho1] at h
          dsimp only at h
          have hlu2 : "last_updated" ∈ (split_cdc_records s.decoCur cdc).2.cols := hlu
          obtain ⟨o2, ho2⟩ := addCurrentHist_isOk o1.1
            (split_cdc_records s.decoCur cdc).2 o1.2 hlu2
          rw [ho2] at h
          dsimp only at h
          injection h with ha hb
          exact absurd hb.symm (by simp)

/-- Witness for C6 amended at the concrete failing ingest (batch with
no timestamp column). -/
theorem c6_amended_witness :
    ((scdStart 0).surrogate_key = "address_sk"
      ∧ trackIngest (scdStart 0) noTsBatch
          = ((trackIngest (scdStart 0) noTsBatch).1,
             some (PdError.keyError "last_updated")))
    ∧ ((trackIngest (scdStart 0) noTsBatch).1.hist = (scdStart 0).hist
      ∧ (trackIngest (scdStart 0) noTsBatch).1.decoCur = (scdStart 0).decoCur
      ∧ (trackIngest (scdStart 0) noTsBatch).1.persisted = (scdStart 0).persisted
      ∧ (trackIngest (scdStart 0) noTsBatch).1.builderCur
          = basicIngestCur (scdStart 0).builderCur noTsBatch) :=
  ⟨⟨by decide, by decide⟩,
   c6_amended (scdStart 0) (trackIngest (scdStart 0) noTsBatch).1 noTsBatch
     (PdError.keyError "last_updated") (by decide) (by decide)⟩

theorem swapIx_error_not_mem {df : DF} {k : String} {e : PdError}
    (h : df.swapIx k = Except.error e) : ¬ k ∈ df.ixName :: df.cols := by
  intro hm
  rw [swapIx_ok hm] at h
  exact absurd h (by simp)

/-- C8 amended: no `SchemaError` exists.  Construction performs no
schema validation at all: the current table is the initial load
whether or not the natural key attribute is present, and no error is
raised.  The basic engine's ingest never reads the timestamp attribute
and raises nothing either (it is a total function).  Only the history
engine's ingest fails on a batch without the `last_updated` column,
and the error is the pandas column-lookup `KeyError`. -/
theorem c8_amended :
    (∀ (l : DF) (pk : String), (basicBuild l pk).current_table = l)
    ∧ (∀ (l : DF) (pk : String) (cdc : DF),
        (basicIngest (basicBuild l pk) cdc).current_table = basicIngestCur l cdc)
    ∧ (∀ (s : Track) (cdc : DF),
        "effective_end" ∈ s.hist.cols →
        s.natural_key ∈ s.hist.ixName :: s.hist.cols →
        ¬ "last_updated" ∈ cdc.cols →
        (trackIngest s cdc).2 = some (PdError.keyError "last_updated")) := by
  refine ⟨fun l pk => rfl, fun l pk cdc => rfl, ?_⟩
  intro s cdc h1 h2 h3
  unfold trackIngest
  dsimp only
  rw [filterNull_ok h1]
  dsimp only
  split
  next e4 heq => exact (swapIx_error_not_mem heq h2).elim
  next view1 heq =>
    have hno : (split_cdc_records s.decoCur cdc).1.getColVals "last_updated" = none :=
      getColVals_neg h3
    rw [hno]

/-- Witness for C8 amended at the concrete state and batch. -/
theorem c8_amended_witness :
    ("effective_end" ∈ (scdStart 0).hist.cols
      ∧ (scdStart 0).natural_key ∈ (scdStart 0).hist.ixName :: (scdStart 0).hist.cols
      ∧ ¬ "last_updated" ∈ noTsBatch.cols)
    ∧ (trackIngest (scdStart 0) noTsBatch).2 = some (PdError.keyError "last_updated") :=
  ⟨⟨by decide, by decide, by decide⟩,
   c8_amended.2.2 (scdStart 0) noTsBatch (by decide) (by decide) (by decide)⟩

set_option maxHeartbeats 1000000 in
/-- C5 amended: there is no ordering check (no `OrderingViolationError`
exists in the code).  For any timestamps `t ≤ s`, ingesting a CDC row
for `A1` stamped `t` over an open version that started at `s`
succeeds silently (error component `none`): the open version is
closed at `t - 1`, which lies strictly before its own
`effective_start` `s` (an inverted or zero-length interval), and a
new open version starts at `t`. -/
theorem c5_amended (t s : Int) (hts : t ≤ s) :
    trackBuild (basicBuild (scdLoad s) "address_key") (scdLoad s) 0
      = Except.ok (c5Init s)
    ∧ trackIngest (c5Init s) (scdBatch t) = (c5Final t s, none)
    ∧ ((c5Final t s).hist.getRow (Value.vint 0)).map
        (fun r => aGet r "effective_start") = some (some (Value.vdate s))
    ∧ ((c5Final t s).hist.getRow (Value.vint 0)).map
        (fun r => aGet r "effective_end") = some (some (Value.vdate (t - 1)))
    ∧ t - 1 < s
    ∧ ((c5Final t s).hist.getRow (Value.vint 1)).map
        (fun r => aGet r "effective_start") = some (some (Value.vdate t))
    ∧ ((c5Final t s).hist.getRow (Value.vint 1)).map
        (fun r => aGet r "effective_end") = some (some Value.vnull) := by
  refine ⟨rfl, rfl, rfl, rfl, by omega, rfl, rfl⟩

/-- Witness for C5 amended at `t = s = 0`. -/
theorem c5_amended_witness :
    (0 : Int) ≤ 0
    ∧ (trackBuild (basicBuild (scdLoad 0) "address_key") (scdLoad 0) 0
        = Except.ok (c5Init 0)
      ∧ trackIngest (c5Init 0) (scdBatch 0) = (c5Final 0 0, none)
      ∧ ((c5Final 0 0).hist.getRow (Value.vint 0)).map
          (fun r => aGet r "effective_start") = some (some (Value.vdate 0))
      ∧ ((c5Final 0 0).hist.getRow (Value.vint 0)).map
          (fun r => aGet r "effective_end") = some (some (Value.vdate (0 - 1)))
      ∧ (0 : Int) - 1 < 0
      ∧ ((c5Final 0 0).hist.getRow (Value.vint 1)).map
          (fun r => aGet r "effective_start") = some (some (Value.vdate 0))
      ∧ ((c5Final 0 0).hist.getRow (Value.vint 1)).map
          (fun r => aGet r "effective_end") = some (some Value.vnull)) :=
  ⟨by decide, c5_amended 0 0 (by decide)⟩

/-- C10 amended: `ingest_cdc` does not mutate the caller's batch.  The
batch object is only read (by the builder's upsert/append and as the
source of the boolean-mask partition, which copies), so after the call
the caller's frame is unchanged; the surrogate-key and effective
columns are added to the internal partition copies only. -/
theorem c10_amended (s : Track) (cdc : DF) :
    (trackIngestObs s cdc).2 = cdc
    ∧ (trackIngestObs s cdc).1 = trackIngest s cdc :=
  ⟨rfl, rfl⟩
